import Mathlib

/-!
Verification development for the VersusAI Comparison Session Engine.

The definitions below are a shallow embedding of the TypeScript sources:

* `src/services/gemini.ts` — `compareProducts` (brace-span extraction of the
  structured record from raw model text, grounding-source extraction) and
  `getPersonaAnalysis`;
* `src/unnamed/part_000` (the application module) — `handleSearch` (history
  update, error path), `toggleSave`, `isCurrentResultSaved`,
  `clearHistory`, `deleteHistoryItem`, `calculateRealStats`;
* `src/components/ComparisonResults.tsx` — `handlePersonaSelect` and the
  persona-request completion behaviour.

Text is modelled as `List Char`.  JavaScript `JSON.parse` is an external
runtime primitive, so it is modelled here by an executable recursive-descent
parser `parseJson` over a `Json` value type covering the JSON fragment the
application exchanges (objects, arrays, strings with the common escapes,
integers, booleans, null); like `JSON.parse`, it rejects trailing garbage
after the parsed value.
-/

namespace VersusAI

/-- JSON values, the runtime shape produced by `JSON.parse`. -/
inductive Json where
  | null : Json
  | bool : Bool → Json
  | num : Int → Json
  | str : List Char → Json
  | arr : List Json → Json
  | obj : List (List Char × Json) → Json

/-- JSON whitespace skipping. -/
def skipWs : List Char → List Char
  | [] => []
  | c :: cs => if c = ' ' ∨ c = '\n' ∨ c = '\t' ∨ c = '\r' then skipWs cs else c :: cs

/-- Parse the body of a JSON string after the opening quote; returns the
decoded characters and the remainder after the closing quote. -/
def parseStringBody : List Char → Option (List Char × List Char)
  | [] => none
  | '"' :: rest => some ([], rest)
  | '\\' :: c :: rest =>
      match parseStringBody rest with
      | some (s, r) =>
          match c with
          | '"' => some ('"' :: s, r)
          | '\\' => some ('\\' :: s, r)
          | '/' => some ('/' :: s, r)
          | 'n' => some ('\n' :: s, r)
          | 't' => some ('\t' :: s, r)
          | 'r' => some ('\r' :: s, r)
          | _ => none
      | none => none
  | c :: rest =>
      if c = '\\' then none
      else (parseStringBody rest).map (fun p => (c :: p.1, p.2))

/-- Split off a maximal run of decimal digits. -/
def takeDigits (cs : List Char) : List Char × List Char :=
  cs.span Char.isDigit

/-- Decimal digits to a natural number. -/
def digitsToNat (ds : List Char) : Nat :=
  ds.foldl (fun a c => a * 10 + (c.toNat - 48)) 0

mutual

/-- Fuel-driven JSON value parser (model of the `JSON.parse` grammar on the
fragment used by the application). -/
def parseValue : Nat → List Char → Option (Json × List Char)
  | 0, _ => none
  | fuel + 1, cs =>
    match skipWs cs with
    | '{' :: rest =>
        match skipWs rest with
        | '}' :: rest2 => some (Json.obj [], rest2)
        | rest2 => (parseMembers fuel rest2).map (fun p => (Json.obj p.1, p.2))
    | '[' :: rest =>
        match skipWs rest with
        | ']' :: rest2 => some (Json.arr [], rest2)
        | rest2 => (parseElements fuel rest2).map (fun p => (Json.arr p.1, p.2))
    | '"' :: rest => (parseStringBody rest).map (fun p => (Json.str p.1, p.2))
    | 't' :: 'r' :: 'u' :: 'e' :: rest => some (Json.bool true, rest)
    | 'f' :: 'a' :: 'l' :: 's' :: 'e' :: rest => some (Json.bool false, rest)
    | 'n' :: 'u' :: 'l' :: 'l' :: rest => some (Json.null, rest)
    | '-' :: rest =>
        match takeDigits rest with
        | ([], _) => none
        | (ds, r) => some (Json.num (-(digitsToNat ds : Int)), r)
    | cs2 =>
        match takeDigits cs2 with
        | ([], _) => none
        | (ds, r) => some (Json.num (digitsToNat ds), r)

/-- Object members after the opening brace (non-empty object case). -/
def parseMembers : Nat → List Char → Option (List (List Char × Json) × List Char)
  | 0, _ => none
  | fuel + 1, cs =>
    match skipWs cs with
    | '"' :: rest =>
        match parseStringBody rest with
        | none => none
        | some (key, r1) =>
            match skipWs r1 with
            | ':' :: r2 =>
                match parseValue fuel r2 with
                | none => none
                | some (v, r3) =>
                    match skipWs r3 with
                    | ',' :: r4 => (parseMembers fuel r4).map (fun p => ((key, v) :: p.1, p.2))
                    | '}' :: r4 => some ([(key, v)], r4)
                    | _ => none
            | _ => none
    | _ => none

/-- Array elements after the opening bracket (non-empty array case). -/
def parseElements : Nat → List Char → Option (List Json × List Char)
  | 0, _ => none
  | fuel + 1, cs =>
    match parseValue fuel cs with
    | none => none
    | some (v, r1) =>
        match skipWs r1 with
        | ',' :: r2 => (parseElements fuel r2).map (fun p => (v :: p.1, p.2))
        | ']' :: r2 => some ([v], r2)
        | _ => none

end

/-- Model of `JSON.parse`: parse one value and reject trailing garbage
(`JSON.parse` throws on any non-whitespace left over). `none` models the
thrown `SyntaxError`. -/
def parseJson (cs : List Char) : Option Json :=
  match parseValue (cs.length + 1) cs with
  | some (v, rest) => if skipWs rest = [] then some v else none
  | none => none

/-- Index of the first `{` in the text, if any. -/
def firstBrace : List Char → Option Nat
  | [] => none
  | c :: cs => if c = '{' then some 0 else (firstBrace cs).map (· + 1)

/-- Index of the last `}` in the text, if any. -/
def lastClose : List Char → Option Nat
  | [] => none
  | c :: cs =>
      match lastClose cs with
      | some j => some (j + 1)
      | none => if c = '}' then some 0 else none

/-- Model of `text.match(/\x7b[\s\S]*\x7d/)` in `compareProducts` and
`getPersonaAnalysis`: the greedy regex matches exactly the span from the
first `{` to the last `}` of the whole text, provided that last `}` comes
after the first `{`; otherwise there is no match. -/
def extractSpan (cs : List Char) : Option (List Char) :=
  match firstBrace cs, lastClose cs with
  | some i, some j => if i < j then some ((cs.drop i).take (j - i + 1)) else none
  | _, _ => none

/-- `true` iff the text contains a `{` with some `}` after it, i.e. iff the
regex `/\x7b[\s\S]*\x7d/` has a match. Independent characterisation used to
state "the text contains no brace span". -/
def hasSpan : List Char → Bool
  | [] => false
  | c :: cs => if c = '{' then cs.any (fun d => decide (d = '}')) else hasSpan cs

/-- The JSON-extraction step of `compareProducts`: match the greedy brace
span and `JSON.parse` it; a parse exception is swallowed and leaves the
data `null` (`none`). -/
def extractData (text : List Char) : Option Json :=
  match extractSpan text with
  | some span => parseJson span
  | none => none

/-! ## Grounding-source extraction (`compareProducts`, gemini.ts lines 83-95) -/

/-- Runtime shape of `chunk.web`: both `title` and `uri` may be absent
(`undefined`); the code never checks `uri`. -/
structure WebRef where
  title : Option String
  uri : Option String
deriving DecidableEq

/-- A grounding citation chunk; only `web` is inspected. -/
structure GroundingChunk where
  web : Option WebRef
deriving DecidableEq

/-- An entry pushed onto `sources`: `title` is always a string (defaulted),
`uri` is copied from `chunk.web.uri` unchecked and may be absent. -/
structure SourceEntry where
  title : String
  uri : Option String
deriving DecidableEq

/-- `chunk.web.title || "Fonte Web"`: JavaScript `||` substitutes the label
when the title is `undefined` or the empty string (both falsy). -/
def titleOrDefault : Option String → String
  | none => "Fonte Web"
  | some t => if t = "" then "Fonte Web" else t

/-- The `groundingChunks.forEach` loop of `compareProducts`: each chunk with
a `web` reference contributes `\x7btitle, uri\x7d`; there is no check on `uri`. -/
def extractSources (chunks : List GroundingChunk) : List SourceEntry :=
  chunks.filterMap (fun c => c.web.map (fun w => ⟨titleOrDefault w.title, w.uri⟩))

/-! ## Application data model (the types module in `src/unnamed/part_000`)

`ComparisonData` is a compile-time TypeScript shape; the runtime value is
whatever `JSON.parse` produced, cast unchecked.  `AnalysisResult.data` is
therefore modelled as `Option Json`, and the §3 schema is expressed as the
predicate `isComparisonRecord` below. -/

/-- `AnalysisResult` from the types module: `data : ComparisonData | null`,
optional `rawText`, originating `query`, optional creation `timestamp`. -/
structure AnalysisResult where
  data : Option Json
  sources : List SourceEntry
  rawText : Option (List Char)
  query : String
  timestamp : Option Int

/-- `SavedComparison extends AnalysisResult` with a generated `id` and a
`savedAt` timestamp. -/
structure SavedComparison extends AnalysisResult where
  id : String
  savedAt : Int

/-- `HistoryItem`: a past query with its timestamp. -/
structure HistoryItem where
  query : String
  timestamp : Int
deriving DecidableEq

/-- The `LoadingState` enum. -/
inductive LoadingState where
  | idle | loading | success | error
deriving DecidableEq

/-- The `view` state: home or saved. -/
inductive AppView where
  | home | saved
deriving DecidableEq

/-- The model result of `compareProducts` (gemini.ts lines 99-118) given the
raw model `text`, the grounding chunks, the query and `Date.now()`:
`data` is the brace-span extraction, `rawText` is kept only when no
structured data was obtained. -/
def compareProductsResult (text : List Char) (chunks : List GroundingChunk)
    (query : String) (now : Int) : AnalysisResult :=
  let jsonData := extractData text
  { data := jsonData
    sources := extractSources chunks
    rawText := match jsonData with | none => some text | some _ => none
    query := query
    timestamp := some now }

/-! ## App component state and handlers (`src/unnamed/part_000`) -/

/-- The slice of the `App` component state the claims are about. -/
structure AppState where
  query : String
  loadingState : LoadingState
  result : Option AnalysisResult
  error : Option String
  history : List HistoryItem
  savedComparisons : List SavedComparison
  view : AppView
  urlQ : Option String

/-- The fixed generic user-facing error message set by `handleSearch`. -/
def errorMessage : String :=
  "Ocorreu um erro ao processar sua comparação. Tente novamente mais tarde."

/-- The `setHistory` updater inside `handleSearch` (part_000 lines 322-326):
drop entries with an identical query, prepend the fresh entry, keep the
first 20. -/
def recordHistory (q : String) (t : Int) (prev : List HistoryItem) : List HistoryItem :=
  (⟨q, t⟩ :: prev.filter (fun item => decide (item.query ≠ q))).take 20

/-- `clearHistory`. -/
def clearHistory (_prev : List HistoryItem) : List HistoryItem := []

/-- `deleteHistoryItem`: remove every entry matching the query. -/
def deleteHistoryItem (queryToDelete : String) (prev : List HistoryItem) : List HistoryItem :=
  prev.filter (fun item => decide (item.query ≠ queryToDelete))

/-- The set of characters JavaScript `String.prototype.trim` strips. -/
def jsWhitespace (c : Char) : Bool :=
  c = ' ' ∨ c = '\t' ∨ c = '\n' ∨ c = '\r' ∨ c = '\x0b' ∨ c = '\x0c'

/-- Model of JavaScript `.trim()`: strip whitespace from both ends. -/
def jsTrim (s : String) : String :=
  String.mk (((s.toList.dropWhile jsWhitespace).reverse.dropWhile jsWhitespace).reverse)

/-- `handleSearch` (part_000 lines 289-332), modelled as a state transformer.
`searchQuery` is the optional explicit argument (JavaScript
`searchQuery || query` falls back to the typed query, `""` included, since
`""` is falsy); `outcome` is the settled result of the awaited
`compareProducts` call (`Except.error` models a rejection carrying the
underlying error); `now` is `Date.now()` at completion. -/
def handleSearch (searchQuery : Option String) (outcome : Except String AnalysisResult)
    (now : Int) (s : AppState) : AppState :=
  let finalQuery :=
    match searchQuery with
    | some q => if q = "" then s.query else q
    | none => s.query
  if jsTrim finalQuery = "" then s
  else
    let s1 : AppState :=
      { s with
        query := finalQuery
        loadingState := LoadingState.loading
        error := none
        result := none
        view := AppView.home
        urlQ := some finalQuery }
    match outcome with
    | Except.ok d =>
        { s1 with
          result := some d
          loadingState := LoadingState.success
          history := recordHistory finalQuery now s1.history }
    | Except.error _ =>
        { s1 with
          error := some errorMessage
          loadingState := LoadingState.error }

/-- Model of JavaScript `Array.prototype.findIndex` returning an optional
index instead of `-1`. -/
def jsFindIndex (p : α → Bool) : List α → Option Nat
  | [] => none
  | a :: l => if p a then some 0 else (jsFindIndex p l).map (· + 1)

/-- `prev.filter((_, i) => i !== idx)`: remove the element at an index. -/
def removeIndex : List α → Nat → List α
  | [], _ => []
  | _ :: l, 0 => l
  | a :: l, n + 1 => a :: removeIndex l n

/-- The key predicate used by `toggleSave` and `isCurrentResultSaved`:
`item.query === result.query && item.timestamp === result.timestamp`. -/
def matchesKey (r : AnalysisResult) (item : SavedComparison) : Bool :=
  decide (item.query = r.query ∧ item.timestamp = r.timestamp)

/-- `toggleSave` (part_000 lines 335-354): a no-op without a current result
or with a `null` record; otherwise remove the first saved entry matching
the (query, timestamp) key, or prepend a fresh `SavedComparison` built from
the result with a generated id (`freshId`) and `savedAt := now`. -/
def toggleSave (result : Option AnalysisResult) (freshId : String) (now : Int)
    (saved : List SavedComparison) : List SavedComparison :=
  match result with
  | none => saved
  | some r =>
      match r.data with
      | none => saved
      | some _ =>
          match jsFindIndex (matchesKey r) saved with
          | some i => removeIndex saved i
          | none => { toAnalysisResult := r, id := freshId, savedAt := now } :: saved

/-- `isCurrentResultSaved`: membership of the current result in the saved
list, decided by the (query, timestamp) key. -/
def isCurrentResultSaved (result : Option AnalysisResult)
    (saved : List SavedComparison) : Bool :=
  match result with
  | none => false
  | some r => saved.any (matchesKey r)

/-- Number of saved entries matching the (query, timestamp) key of the result. -/
def countKey (r : AnalysisResult) (saved : List SavedComparison) : Nat :=
  (saved.filter (matchesKey r)).length

/-! ## Windowed statistics (`calculateRealStats`, part_000 lines 261-287) -/

/-- `Math.round` applied to the exact rational `num / den` (`den > 0`):
round half toward positive infinity, i.e. `⌊num/den + 1/2⌋`, computed as the
integer division `(2*num + den) / (2*den)` (the Lean `Int` division is
Euclidean, which is the floor for a positive divisor).
`roundRatio_eq_floor` below proves it equal to the `⌊x + 1/2⌋` of the spec. -/
def roundRatio (num den : Int) : Int := (2 * num + den) / (2 * den)

/-- The output record of `calculateRealStats`. -/
structure RealStats where
  searches : Nat
  savedCount : Nat
  trend : String
deriving DecidableEq

/-- `calculateRealStats`: count history entries in the current window and in
the immediately preceding window of equal length, form the rounded trend
percentage (`100` or `0` when the previous count is zero), render it with a
`+` prefix for non-negative values, and count saved items in the window. -/
def calculateRealStats (history : List HistoryItem) (savedComparisons : List SavedComparison)
    (now duration : Int) : RealStats :=
  let periodCount := (history.filter (fun h => decide (now - h.timestamp < duration))).length
  let previousPeriodCount :=
    (history.filter (fun h =>
      decide (duration ≤ now - h.timestamp ∧ now - h.timestamp < duration * 2))).length
  let trendVal : Int :=
    if previousPeriodCount = 0 then (if 0 < periodCount then 100 else 0)
    else roundRatio (((periodCount : Int) - (previousPeriodCount : Int)) * 100)
      (previousPeriodCount : Int)
  let trendStr := (if 0 ≤ trendVal then "+" else "") ++ toString trendVal ++ "%"
  let savedPeriodCount :=
    (savedComparisons.filter (fun sc => decide (now - sc.savedAt < duration))).length
  { searches := periodCount, savedCount := savedPeriodCount, trend := trendStr }

/-- Spec-side (§4.3 `windowStats`): entries with `now - timestamp < windowMs`. -/
def periodCountSpec (history : List HistoryItem) (now windowMs : Int) : Nat :=
  (history.filter (fun h => decide (now - h.timestamp < windowMs))).length

/-- Spec-side (§4.3 `windowStats`): entries with
`windowMs ≤ now - timestamp < 2*windowMs`. -/
def prevPeriodCountSpec (history : List HistoryItem) (now windowMs : Int) : Nat :=
  (history.filter (fun h =>
    decide (windowMs ≤ now - h.timestamp ∧ now - h.timestamp < windowMs * 2))).length

/-- Spec-side trend value: `round((current - previous) / previous * 100)`
over exact rationals (`round x = ⌊x + 1/2⌋`) when `previous > 0`, else `100`
if `current > 0` else `0`. -/
def trendSpec (current previous : Nat) : Int :=
  if previous = 0 then (if 0 < current then 100 else 0)
  else ⌊((current : ℚ) - (previous : ℚ)) / (previous : ℚ) * 100 + 1 / 2⌋

/-- Spec-side rendering: non-negative values get a `+` prefix, then `%`. -/
def trendFormat (v : Int) : String :=
  (if 0 ≤ v then "+" else "") ++ toString v ++ "%"

/-! ## Persona analysis (`ComparisonResults.tsx` and `getPersonaAnalysis`) -/

/-- A persona verdict as displayed: `\x7bwinner, reason\x7d`, both modelled as the
raw `Json` the unchecked cast produces. -/
structure PersonaAnswer where
  winner : Json
  reason : Json

/-- JavaScript field access on a parsed JSON value (`undefined` modelled as
`Json.null`); later duplicate keys win, as in `JSON.parse`. -/
def getField (v : Json) (key : List Char) : Json :=
  match v with
  | Json.obj fs =>
      match fs.reverse.find? (fun p => decide (p.1 = key)) with
      | some p => p.2
      | none => Json.null
  | _ => Json.null

/-- `getPersonaAnalysis` (gemini.ts lines 145-182) applied to the model
response `text`: on a brace-span match, `JSON.parse` the span (a parse
exception propagates, re-thrown by the outer catch, modelled as
`Except.error`); with no match, return winner `"Indeterminado"` and the raw
text as the reason. -/
def getPersonaAnalysis (text : List Char) : Except Unit PersonaAnswer :=
  match extractSpan text with
  | some span =>
      match parseJson span with
      | some v => Except.ok ⟨getField v "winner".toList, getField v "reason".toList⟩
      | none => Except.error ()
  | none => Except.ok ⟨Json.str "Indeterminado".toList, Json.str text⟩

/-! ## The ComparisonRecord schema (types module and spec §3) -/

/-- String projection of a JSON value. -/
def asStr : Json → Option (List Char)
  | Json.str s => some s
  | _ => none

/-- Integer projection of a JSON value. -/
def asInt : Json → Option Int
  | Json.num n => some n
  | _ => none

/-- Array projection of a JSON value. -/
def asArr : Json → Option (List Json)
  | Json.arr xs => some xs
  | _ => none

/-- The ten legal persona icons. -/
def iconNames : List String :=
  ["gamepad", "student", "briefcase", "wallet", "camera", "heart", "zap", "star", "music", "home"]

/-- `ProductInfo`: name and priceEstimate strings, pros and cons string arrays. -/
def isProductInfo (j : Json) : Bool :=
  (asStr (getField j "name".toList)).isSome &&
  (asStr (getField j "priceEstimate".toList)).isSome &&
  (match asArr (getField j "pros".toList) with
   | some xs => xs.all (fun x => (asStr x).isSome)
   | none => false) &&
  (match asArr (getField j "cons".toList) with
   | some xs => xs.all (fun x => (asStr x).isSome)
   | none => false)

/-- `PersonaDefinition`: id, label, description strings and a legal icon. -/
def isPersona (j : Json) : Bool :=
  (asStr (getField j "id".toList)).isSome &&
  (asStr (getField j "label".toList)).isSome &&
  (asStr (getField j "description".toList)).isSome &&
  (match asStr (getField j "icon".toList) with
   | some ic => iconNames.any (fun n => decide (n.toList = ic))
   | none => false)

/-- `TrendDataPoint`: month string and numeric value. -/
def isTrendPoint (j : Json) : Bool :=
  (asStr (getField j "month".toList)).isSome && (asInt (getField j "value".toList)).isSome

/-- `ComparisonPoint` against `n` products: feature string, `values` of
length `n`, `winnerIndex ∈ [-1, n)`, optional boolean `isKeyDifference`. -/
def isComparisonPoint (n : Nat) (j : Json) : Bool :=
  (asStr (getField j "feature".toList)).isSome &&
  (match asArr (getField j "values".toList) with
   | some xs => decide (xs.length = n) && xs.all (fun x => (asStr x).isSome)
   | none => false) &&
  (match asInt (getField j "winnerIndex".toList) with
   | some w => decide (-1 ≤ w ∧ w < (n : Int))
   | none => false) &&
  (match getField j "isKeyDifference".toList with
   | Json.null => true
   | Json.bool _ => true
   | _ => false)

/-- `RadarDataPoint`: subject string and numeric fullMark. -/
def isRadarPoint (j : Json) : Bool :=
  (asStr (getField j "subject".toList)).isSome && (asInt (getField j "fullMark".toList)).isSome

/-- The `ComparisonData` schema with the §3 invariants: at least two
products, rivalryScore in [0,100], an optional 6-point searchTrend, exactly
four personas, `suggestedPersona` referencing one of them, every comparison
row arity-matched with a winnerIndex in `[-1, products.length)`. -/
def isComparisonRecord (v : Json) : Bool :=
  match asArr (getField v "products".toList) with
  | none => false
  | some products =>
      decide (2 ≤ products.length) &&
      products.all isProductInfo &&
      (asStr (getField v "summary".toList)).isSome &&
      (asStr (getField v "verdict".toList)).isSome &&
      (match asInt (getField v "rivalryScore".toList) with
       | some n => decide (0 ≤ n ∧ n ≤ 100)
       | none => false) &&
      (asStr (getField v "rivalryText".toList)).isSome &&
      (match getField v "searchTrend".toList with
       | Json.null => true
       | Json.arr xs => decide (xs.length = 6) && xs.all isTrendPoint
       | _ => false) &&
      (match asArr (getField v "personas".toList) with
       | some ps =>
           decide (ps.length = 4) && ps.all isPersona &&
           (match asStr (getField v "suggestedPersona".toList) with
            | some sid => ps.any (fun p => decide (asStr (getField p "id".toList) = some sid))
            | none => false)
       | none => false) &&
      (match asArr (getField v "comparisonTable".toList) with
       | some rows => rows.all (isComparisonPoint products.length)
       | none => false) &&
      (match asArr (getField v "scores".toList) with
       | some ss => ss.all isRadarPoint
       | none => false)

/-! ## Concrete fixtures -/

/-- A schema-valid `ComparisonData` JSON text (a two-product comparison with
four personas), used as the embedded record in the extraction experiments. -/
def recText : List Char := String.toList
  "\x7b\"products\":[\x7b\"name\":\"PS5\",\"priceEstimate\":\"R$ 3500\",\"pros\":[\"Exclusivos\"],\"cons\":[\"Preco\"]\x7d,\x7b\"name\":\"Xbox\",\"priceEstimate\":\"R$ 3200\",\"pros\":[\"Game Pass\"],\"cons\":[\"Menos exclusivos\"]\x7d],\"summary\":\"Resumo comparativo\",\"verdict\":\"Veredito final\",\"rivalryScore\":85,\"rivalryText\":\"Rivalidade alta\",\"personas\":[\x7b\"id\":\"p1\",\"label\":\"Gamer\",\"description\":\"d1\",\"icon\":\"gamepad\"\x7d,\x7b\"id\":\"p2\",\"label\":\"Estudante\",\"description\":\"d2\",\"icon\":\"student\"\x7d,\x7b\"id\":\"p3\",\"label\":\"Economico\",\"description\":\"d3\",\"icon\":\"wallet\"\x7d,\x7b\"id\":\"p4\",\"label\":\"Familia\",\"description\":\"d4\",\"icon\":\"home\"\x7d],\"suggestedPersona\":\"p1\",\"comparisonTable\":[\x7b\"feature\":\"Tela\",\"values\":[\"A\",\"B\"],\"winnerIndex\":0,\"isKeyDifference\":true\x7d],\"scores\":[\x7b\"subject\":\"Desempenho\",\"prod0\":90,\"prod1\":85,\"fullMark\":100\x7d]\x7d"

/-- Leading prose with no brace. -/
def prosePre : List Char := "Claro! Aqui esta a comparacao completa: ".toList

/-- Trailing prose containing a stray closing brace. -/
def proseBad : List Char := " Espero ter ajudado! \x7d".toList

/-- Trailing prose with no closing brace. -/
def proseGood : List Char := " Espero ter ajudado!".toList

/-- The persona-analysis slice of the `ComparisonResults` component state,
plus the persisted `preferredPersonaId`. -/
structure PersonaState where
  selectedPersona : Option String
  personaResult : Option PersonaAnswer
  loadingPersona : Bool
  preferredPersonaId : Option String

/-- The dispatch phase of `handlePersonaSelect` (ComparisonResults.tsx lines
130-155): record the selection, persist it, clear the previous verdict and
mark loading, then issue the request. -/
def personaDispatch (personaId : String) (_s : PersonaState) : PersonaState :=
  { selectedPersona := some personaId
    personaResult := none
    loadingPersona := true
    preferredPersonaId := some personaId }

/-- The completion phase of `handlePersonaSelect`: `setPersonaResult(result)`
then `setLoadingPersona(false)` — applied unconditionally, with no
comparison of the dispatch-time persona id against the current selection. -/
def personaComplete (verdict : PersonaAnswer) (s : PersonaState) : PersonaState :=
  { s with personaResult := some verdict, loadingPersona := false }

/-! ## Lemmas on the brace-span extraction -/

/-- A text without `}` has no last-close index. -/
theorem lastClose_eq_none {l : List Char} (h : '}' ∉ l) : lastClose l = none := by
  induction l with
  | nil => rfl
  | cons c cs ih =>
      have hc : c ≠ '}' := fun hc => h (hc ▸ List.mem_cons_self c cs)
      have hcs : '}' ∉ cs := fun hm => h (List.mem_cons_of_mem c hm)
      simp [lastClose, ih hcs, hc]

/-- The first `{` of `pre ++ '\x7b' :: rest` is at index `pre.length` when `pre`
is brace-free. -/
theorem firstBrace_append {pre : List Char} (rest : List Char) (h : '{' ∉ pre) :
    firstBrace (pre ++ '{' :: rest) = some pre.length := by
  induction pre with
  | nil => simp [firstBrace]
  | cons c cs ih =>
      have hc : c ≠ '{' := fun hc => h (hc ▸ List.mem_cons_self c cs)
      have hcs : '{' ∉ cs := fun hm => h (List.mem_cons_of_mem c hm)
      simp [firstBrace, hc, ih hcs]

/-- The last `}` of `xs ++ '\x7d' :: post` is at index `xs.length` when `post`
has no `}`. -/
theorem lastClose_append {post : List Char} (xs : List Char) (h : '}' ∉ post) :
    lastClose (xs ++ '}' :: post) = some xs.length := by
  induction xs with
  | nil => simp [lastClose, lastClose_eq_none h]
  | cons c cs ih => simp [lastClose, ih]

/-- A list whose optional last element is `c` splits as `u ++ [c]`. -/
theorem getLast?_eq_append {l : List Char} {c : Char} (h : l.getLast? = some c) :
    ∃ u, l = u ++ [c] := by
  rw [← List.head?_reverse] at h
  cases hr : l.reverse with
  | nil => rw [hr] at h; simp at h
  | cons d t =>
      rw [hr] at h
      simp only [List.head?_cons, Option.some.injEq] at h
      refine ⟨t.reverse, ?_⟩
      have h2 : l = (d :: t).reverse := by rw [← hr, List.reverse_reverse]
      rw [h2, List.reverse_cons, h]

/-- When the text has no `\x7b...\x7d` span the greedy regex does not match. -/
theorem extractSpan_eq_none {cs : List Char} (h : hasSpan cs = false) :
    extractSpan cs = none := by
  induction cs with
  | nil => rfl
  | cons c cs ih =>
      by_cases hc : c = '{'
      · subst hc
        have hany : cs.any (fun d => decide (d = '}')) = false := by
          simpa [hasSpan] using h
        have hnotin : '}' ∉ cs := by
          intro hm
          have : cs.any (fun d => decide (d = '}')) = true :=
            List.any_eq_true.mpr ⟨'}', hm, by simp⟩
          rw [this] at hany
          exact Bool.noConfusion hany
        have hlc : lastClose cs = none := lastClose_eq_none hnotin
        simp [extractSpan, firstBrace, lastClose, hlc]
      · have h' : hasSpan cs = false := by simpa [hasSpan, hc] using h
        have ihe := ih h'
        unfold extractSpan at ihe ⊢
        cases hf : firstBrace cs with
        | none => simp [firstBrace, hc, hf]
        | some i =>
            cases hl : lastClose cs with
            | some j =>
                rw [hf, hl] at ihe
                have hij : ¬ i < j := by
                  by_contra hlt
                  simp [hlt] at ihe
                have hij1 : ¬ i + 1 < j + 1 := by omega
                simp [firstBrace, lastClose, hc, hf, hl, hij, hij1]
            | none =>
                by_cases hcb : c = '}'
                · simp [firstBrace, lastClose, hc, hcb, hf, hl]
                · simp [firstBrace, lastClose, hc, hcb, hf, hl]

/-! ## Claim theorems -/

/-- Claim C1 (corrected). The claim as stated — round-trip for a record
embedded in *arbitrary* prose — fails (see the counterexample); it holds
once the surrounding prose is brace-clean: if the model text is
`pre ++ s ++ post` where `s` is JSON text parsing to `r` (an object, so it
starts with `\x7b` and ends with `\x7d`), `pre` contains no `\x7b` and `post` contains
no `\x7d`, then the greedy first-`\x7b`-to-last-`\x7d` extraction of `compareProducts`
returns exactly `r` as the structured data. -/
theorem extraction_roundtrip_clean_prose
    (pre s post : List Char) (r : Json) (chunks : List GroundingChunk) (q : String) (now : Int)
    (hpre : '{' ∉ pre) (hpost : '}' ∉ post)
    (hparse : parseJson s = some r)
    (hhead : s.head? = some '{') (hlast : s.getLast? = some '}') :
    (compareProductsResult (pre ++ s ++ post) chunks q now).data = some r := by
  obtain ⟨u, hu⟩ := getLast?_eq_append hlast
  cases s with
  | nil => simp at hhead
  | cons a t =>
      simp only [List.head?_cons, Option.some.injEq] at hhead
      subst hhead
      have hune : u ≠ [] := by
        intro h0
        rw [h0] at hu
        simp at hu
      have hfb : firstBrace (pre ++ ('{' :: t) ++ post) = some pre.length := by
        have e1 : pre ++ ('{' :: t) ++ post = pre ++ '{' :: (t ++ post) := by simp
        rw [e1]
        exact firstBrace_append (t ++ post) hpre
      have hlc : lastClose (pre ++ ('{' :: t) ++ post) = some (pre.length + u.length) := by
        have e2 : pre ++ ('{' :: t) ++ post = (pre ++ u) ++ '}' :: post := by
          rw [hu]
          simp [List.append_assoc]
        rw [e2, lastClose_append (pre ++ u) hpost]
        simp
      have hlen : ('{' :: t).length = u.length + 1 := by
        rw [hu]
        simp
      have hspan : extractSpan (pre ++ ('{' :: t) ++ post) = some ('{' :: t) := by
        unfold extractSpan
        rw [hfb, hlc]
        have hlt : pre.length < pre.length + u.length := by
          have : 0 < u.length := List.length_pos.mpr hune
          omega
        dsimp only
        rw [if_pos hlt]
        have harith : pre.length + u.length - pre.length + 1 = ('{' :: t).length := by
          rw [hlen]
          omega
        rw [harith, List.append_assoc, List.drop_left, List.take_left]
      have hdata : (compareProductsResult (pre ++ ('{' :: t) ++ post) chunks q now).data
          = extractData (pre ++ ('{' :: t) ++ post) := rfl
      rw [hdata]
      unfold extractData
      rw [hspan]
      exact hparse

set_option maxRecDepth 400000 in
/-- Claim C1, counterexample to the claim as stated: `recText` parses as a
schema-valid ComparisonRecord, yet embedding it in prose whose trailing part
contains a stray `\x7d` makes the greedy span unparsable, so `compareProducts`
returns no structured data at all (it falls back to the raw text), not the
embedded record. -/
theorem extraction_prose_counterexample :
    (parseJson recText).isSome = true ∧
    isComparisonRecord ((parseJson recText).getD Json.null) = true ∧
    (compareProductsResult (prosePre ++ recText ++ proseBad) [] "PS5 vs Xbox" 0).data = none ∧
    (compareProductsResult (prosePre ++ recText ++ proseBad) [] "PS5 vs Xbox" 0).rawText
      = some (prosePre ++ recText ++ proseBad) :=
  ⟨by decide, by decide, by rfl, by rfl⟩

set_option maxRecDepth 400000 in
/-- Claim C1, witness: the amended round-trip theorem applied to the same
record embedded in brace-clean prose. -/
theorem extraction_roundtrip_witness :
    (compareProductsResult (prosePre ++ recText ++ proseGood) [] "PS5 vs Xbox" 0).data
      = some ((parseJson recText).getD Json.null) :=
  extraction_roundtrip_clean_prose prosePre recText proseGood
    ((parseJson recText).getD Json.null) [] "PS5 vs Xbox" 0
    (by decide) (by decide) (by rfl) (by decide) (by decide)

/-- Claim C10 (confirmed). When the persona-analysis response text contains
no `\x7b...\x7d` span, `getPersonaAnalysis` neither fails nor returns an empty
state: it returns winner `"Indeterminado"` with the raw response text as the
reason. -/
theorem persona_no_span_fallback (text : List Char) (h : hasSpan text = false) :
    getPersonaAnalysis text
      = Except.ok ⟨Json.str "Indeterminado".toList, Json.str text⟩ := by
  unfold getPersonaAnalysis
  rw [extractSpan_eq_none h]

/-- Claim C10, witness: a braceless response text yields the
`"Indeterminado"` verdict carrying the raw text. -/
theorem persona_no_span_fallback_witness :
    getPersonaAnalysis "O vencedor depende do seu perfil.".toList
      = Except.ok ⟨Json.str "Indeterminado".toList,
                   Json.str "O vencedor depende do seu perfil.".toList⟩ :=
  persona_no_span_fallback "O vencedor depende do seu perfil.".toList (by decide)

/-! ## Lemmas on `jsFindIndex` and `removeIndex` -/

/-- A failed `findIndex` means no element satisfies the predicate. -/
theorem jsFindIndex_eq_none {α} {p : α → Bool} {l : List α}
    (h : jsFindIndex p l = none) : ∀ y ∈ l, p y = false := by
  induction l with
  | nil => intro y hy; cases hy
  | cons a l ih =>
      intro y hy
      by_cases hpa : p a = true
      · simp [jsFindIndex, hpa] at h
      · have h' : jsFindIndex p l = none := by
          have := h
          simp only [jsFindIndex, if_neg hpa] at this
          exact Option.map_eq_none'.mp this
        rcases List.mem_cons.mp hy with rfl | hy
        · exact Bool.eq_false_iff.mpr hpa
        · exact ih h' y hy

/-- If no element satisfies the predicate, `findIndex` fails. -/
theorem jsFindIndex_eq_none_of_all {α} {p : α → Bool} {l : List α}
    (h : ∀ y ∈ l, p y = false) : jsFindIndex p l = none := by
  induction l with
  | nil => rfl
  | cons a l ih =>
      have hpa : p a = false := h a (List.mem_cons_self a l)
      have hl : jsFindIndex p l = none := ih (fun y hy => h y (List.mem_cons_of_mem a hy))
      simp [jsFindIndex, hpa, hl]

/-- A successful `findIndex` splits the list at the first hit, and
`removeIndex` at that index removes exactly the hit. -/
theorem jsFindIndex_eq_some {α} {p : α → Bool} {l : List α} {i : Nat}
    (h : jsFindIndex p l = some i) :
    ∃ l1 x l2, l = l1 ++ x :: l2 ∧ l1.length = i ∧ p x = true ∧
      (∀ y ∈ l1, p y = false) ∧ removeIndex l i = l1 ++ l2 := by
  induction l generalizing i with
  | nil => cases h
  | cons a l ih =>
      by_cases hpa : p a = true
      · have hi : i = 0 := by
          have := h
          simp only [jsFindIndex, if_pos hpa, Option.some.injEq] at this
          omega
        subst hi
        exact ⟨[], a, l, by simp, rfl, hpa, by simp, rfl⟩
      · have h' : (jsFindIndex p l).map (· + 1) = some i := by
          have := h
          simp only [jsFindIndex, if_neg hpa] at this
          exact this
        rcases Option.map_eq_some'.mp h' with ⟨i', hi', rfl⟩
        obtain ⟨l1, x, l2, hl, hlen, hpx, hall, hrem⟩ := ih hi'
        refine ⟨a :: l1, x, l2, by simp [hl], by simp [hlen], hpx, ?_, ?_⟩
        · intro y hy
          rcases List.mem_cons.mp hy with rfl | hy
          · exact Bool.eq_false_iff.mpr hpa
          · exact hall y hy
        · show a :: removeIndex l i' = (a :: l1) ++ l2
          rw [hrem]
          rfl

/-- The freshly built `SavedComparison` carries the key of the result. -/
theorem matchesKey_new (r : AnalysisResult) (freshId : String) (now : Int) :
    matchesKey r { toAnalysisResult := r, id := freshId, savedAt := now } = true := by
  simp [matchesKey]

/-! ## Claim C2: toggleSave -/

/-- Claim C2 (confirmed). For a result with a structured record, on any
saved list where the (query, timestamp) key occurs at most once (the
invariant every reachable saved list satisfies), toggling twice restores
the original membership, a single toggle keeps the key unduplicated, and
membership is insensitive to rewriting the generated ids. -/
theorem toggle_involution (r : AnalysisResult) (saved : List SavedComparison)
    (id1 id2 : String) (t1 t2 : Int) (f : SavedComparison → String)
    (hd : r.data.isSome = true)
    (hkey : countKey r saved ≤ 1) :
    isCurrentResultSaved (some r)
        (toggleSave (some r) id2 t2 (toggleSave (some r) id1 t1 saved))
      = isCurrentResultSaved (some r) saved ∧
    countKey r (toggleSave (some r) id1 t1 saved) ≤ 1 ∧
    isCurrentResultSaved (some r) (saved.map (fun e => { e with id := f e }))
      = isCurrentResultSaved (some r) saved := by
  obtain ⟨j, hj⟩ := Option.isSome_iff_exists.mp hd
  have hsome : ∀ (fid : String) (tt : Int) (l : List SavedComparison) (i : Nat),
      jsFindIndex (matchesKey r) l = some i →
      toggleSave (some r) fid tt l = removeIndex l i := by
    intro fid tt l i hfi
    unfold toggleSave
    dsimp only
    rw [hj]
    dsimp only
    rw [hfi]
  have hnone : ∀ (fid : String) (tt : Int) (l : List SavedComparison),
      jsFindIndex (matchesKey r) l = none →
      toggleSave (some r) fid tt l
        = { toAnalysisResult := r, id := fid, savedAt := tt } :: l := by
    intro fid tt l hfi
    unfold toggleSave
    dsimp only
    rw [hj]
    dsimp only
    rw [hfi]
  refine ⟨?_, ?_, ?_⟩
  · cases hfi : jsFindIndex (matchesKey r) saved with
    | none =>
        have hmem : saved.any (matchesKey r) = false := by
          apply List.any_eq_false.mpr
          intro x hx
          simp [jsFindIndex_eq_none hfi x hx]
        have h1 : toggleSave (some r) id1 t1 saved
            = { toAnalysisResult := r, id := id1, savedAt := t1 } :: saved :=
          hnone id1 t1 saved hfi
        have hfi2 : jsFindIndex (matchesKey r)
            ({ toAnalysisResult := r, id := id1, savedAt := t1 } :: saved) = some 0 := by
          simp [jsFindIndex, matchesKey_new]
        have h2 : toggleSave (some r) id2 t2 (toggleSave (some r) id1 t1 saved) = saved := by
          rw [h1, hsome id2 t2 _ 0 hfi2]
          rfl
        rw [h2]
    | some i =>
        obtain ⟨l1, x, l2, hl, hlen, hpx, hall, hrem⟩ := jsFindIndex_eq_some hfi
        have h1 : toggleSave (some r) id1 t1 saved = l1 ++ l2 := by
          rw [hsome id1 t1 saved i hfi, hrem]
        have hl2 : ∀ y ∈ l2, matchesKey r y = false := by
          intro y hy
          by_contra hyx
          have hyt : matchesKey r y = true := by
            cases hmk : matchesKey r y with
            | false => exact absurd hmk hyx
            | true => rfl
          have hcount : 2 ≤ countKey r saved := by
            have : countKey r saved
                = ((l1 ++ x :: l2).filter (matchesKey r)).length := by rw [countKey, hl]
            rw [this, List.filter_append]
            simp only [List.length_append]
            have hx2 : ((x :: l2).filter (matchesKey r)).length ≥ 2 := by
              rw [List.filter_cons_of_pos hpx]
              have : y ∈ l2.filter (matchesKey r) := List.mem_filter.mpr ⟨hy, hyt⟩
              have hpos : 0 < (l2.filter (matchesKey r)).length :=
                List.length_pos.mpr (fun hnil => by rw [hnil] at this; cases this)
              simp only [List.length_cons]
              omega
            omega
          omega
        have hnone2 : jsFindIndex (matchesKey r) (l1 ++ l2) = none := by
          apply jsFindIndex_eq_none_of_all
          intro y hy
          rcases List.mem_append.mp hy with hy1 | hy2
          · exact hall y hy1
          · exact hl2 y hy2
        have h2 : toggleSave (some r) id2 t2 (toggleSave (some r) id1 t1 saved)
            = { toAnalysisResult := r, id := id2, savedAt := t2 } :: (l1 ++ l2) := by
          rw [h1, hnone id2 t2 _ hnone2]
        rw [h2]
        have hxmem : x ∈ saved := by
          rw [hl]
          exact List.mem_append_right l1 (List.mem_cons_self x l2)
        have hmem1 : isCurrentResultSaved (some r) saved = true := by
          simp only [isCurrentResultSaved]
          exact List.any_eq_true.mpr ⟨x, hxmem, hpx⟩
        rw [hmem1]
        simp [isCurrentResultSaved, List.any_cons, matchesKey_new]
  · cases hfi : jsFindIndex (matchesKey r) saved with
    | none =>
        have h1 : toggleSave (some r) id1 t1 saved
            = { toAnalysisResult := r, id := id1, savedAt := t1 } :: saved :=
          hnone id1 t1 saved hfi
        have hnil : saved.filter (matchesKey r) = [] := by
          apply List.filter_eq_nil_iff.mpr
          intro x hx
          simp [jsFindIndex_eq_none hfi x hx]
        rw [h1, countKey, List.filter_cons_of_pos (matchesKey_new r id1 t1), hnil]
        simp
    | some i =>
        obtain ⟨l1, x, l2, hl, hlen, hpx, hall, hrem⟩ := jsFindIndex_eq_some hfi
        have h1 : toggleSave (some r) id1 t1 saved = l1 ++ l2 := by
          rw [hsome id1 t1 saved i hfi, hrem]
        have hfl1 : l1.filter (matchesKey r) = [] := by
          apply List.filter_eq_nil_iff.mpr
          intro y hy
          simp [hall y hy]
        have hfl2 : l2.filter (matchesKey r) = [] := by
          have hc : countKey r saved
              = (l1.filter (matchesKey r)).length + 1 + (l2.filter (matchesKey r)).length := by
            rw [countKey, hl, List.filter_append, List.filter_cons_of_pos hpx]
            simp [List.length_append]
            omega
          rw [hfl1] at hc
          simp at hc
          have : (l2.filter (matchesKey r)).length = 0 := by omega
          exact List.length_eq_zero.mp this
        rw [h1, countKey, List.filter_append, hfl1, hfl2]
        simp
  · simp only [isCurrentResultSaved, List.any_map]
    rfl

/-- A sample structured result used by concrete witnesses. -/
def sampleResult : AnalysisResult :=
  { data := some Json.null
    sources := []
    rawText := none
    query := "PS5 vs Xbox"
    timestamp := some 5 }

/-- Claim C2, witness: the toggle theorem at a concrete structured result on
the empty saved list. -/
theorem toggle_involution_witness :
    isCurrentResultSaved (some sampleResult)
        (toggleSave (some sampleResult) "id2" 8 (toggleSave (some sampleResult) "id1" 7 []))
      = isCurrentResultSaved (some sampleResult) [] ∧
    countKey sampleResult (toggleSave (some sampleResult) "id1" 7 []) ≤ 1 ∧
    isCurrentResultSaved (some sampleResult)
        (List.map (fun e : SavedComparison => { e with id := (fun _ => "novo") e })
          ([] : List SavedComparison))
      = isCurrentResultSaved (some sampleResult) [] :=
  toggle_involution sampleResult [] "id1" "id2" 7 8 (fun _ => "novo") (by rfl) (by decide)

/-- Claim C9 (confirmed). Without a current result, or with a current result
whose structured record is `null` (raw-text fallback), `toggleSave` leaves
the saved-comparisons list unchanged, so an unstructured result can never be
bookmarked. -/
theorem toggle_noop_unstructured (r? : Option AnalysisResult) (freshId : String)
    (now : Int) (saved : List SavedComparison)
    (h : r? = none ∨ ∃ r, r? = some r ∧ r.data = none) :
    toggleSave r? freshId now saved = saved := by
  rcases h with rfl | ⟨r, rfl, hd⟩
  · rfl
  · unfold toggleSave
    dsimp only
    rw [hd]

/-- A raw-text-only (unstructured) result. -/
def rawOnlyResult : AnalysisResult :=
  { data := none
    sources := []
    rawText := some "texto".toList
    query := "A vs B"
    timestamp := some 3 }

/-- Claim C9, witness: the no-op theorem at a raw-text-only result. -/
theorem toggle_noop_unstructured_witness :
    toggleSave (some rawOnlyResult) "id9" 11 [] = [] :=
  toggle_noop_unstructured (some rawOnlyResult) "id9" 11 [] (Or.inr ⟨_, rfl, rfl⟩)

/-! ## Claims C3 and C4: the history ledger -/

/-- After one record, the entries of the result for the recorded query are
exactly the fresh entry. -/
theorem recordHistory_filter_self (q : String) (t : Int) (prev : List HistoryItem) :
    (recordHistory q t prev).filter (fun h => decide (h.query = q)) = [⟨q, t⟩] := by
  have hrec : recordHistory q t prev
      = ⟨q, t⟩ :: (prev.filter (fun item => decide (item.query ≠ q))).take 19 := rfl
  rw [hrec]
  rw [List.filter_cons_of_pos (by simp)]
  have h3 : (prev.filter (fun item => decide (item.query ≠ q))).filter
      (fun h => decide (h.query = q)) = [] := by
    rw [List.filter_filter]
    apply List.filter_eq_nil_iff.mpr
    intro a ha
    by_cases hq : a.query = q <;> simp [hq]
  have hsub : List.Sublist
      (((prev.filter (fun item => decide (item.query ≠ q))).take 19).filter
        (fun h => decide (h.query = q)))
      ((prev.filter (fun item => decide (item.query ≠ q))).filter
        (fun h => decide (h.query = q))) :=
    (List.take_sublist 19 _).filter _
  rw [h3] at hsub
  rw [List.sublist_nil.mp hsub]

/-- Claim C3 (confirmed). Recording a query removes every entry with an
identical query and prepends the fresh entry (the tail is drawn from the
other entries of the previous list, in order); recording the same query
twice leaves exactly one entry for it, at position 0, carrying the latest
timestamp. -/
theorem record_dedupes_and_prepends (q : String) (t t2 : Int) (prev : List HistoryItem) :
    (recordHistory q t prev).head? = some ⟨q, t⟩ ∧
    (recordHistory q t prev).filter (fun h => decide (h.query = q)) = [⟨q, t⟩] ∧
    List.Sublist ((recordHistory q t prev).tail)
      (prev.filter (fun h => decide (h.query ≠ q))) ∧
    (recordHistory q t2 (recordHistory q t prev)).filter
      (fun h => decide (h.query = q)) = [⟨q, t2⟩] ∧
    (recordHistory q t2 (recordHistory q t prev)).head? = some ⟨q, t2⟩ := by
  refine ⟨rfl, recordHistory_filter_self q t prev, ?_,
    recordHistory_filter_self q t2 _, rfl⟩
  show List.Sublist ((prev.filter (fun item => decide (item.query ≠ q))).take 19)
    (prev.filter (fun h => decide (h.query ≠ q)))
  exact List.take_sublist 19 _

/-- Claim C4 (confirmed). Every history operation keeps the ledger within 20
entries: `record` always returns at most 20, `clear` empties, `remove` never
grows the list; and recording a 21st distinct query drops exactly the oldest
(last) entry. -/
theorem history_bounded (q qd : String) (t : Int) (prev : List HistoryItem) :
    (recordHistory q t prev).length ≤ 20 ∧
    (clearHistory prev).length ≤ 20 ∧
    (deleteHistoryItem qd prev).length ≤ prev.length ∧
    (prev.length ≤ 20 → (deleteHistoryItem qd prev).length ≤ 20) ∧
    (prev.length = 20 → (∀ h ∈ prev, h.query ≠ q) →
      recordHistory q t prev = ⟨q, t⟩ :: prev.dropLast) := by
  have hdel : (deleteHistoryItem qd prev).length ≤ prev.length :=
    List.length_filter_le _ prev
  refine ⟨?_, by simp [clearHistory], hdel, fun h20 => le_trans hdel h20, ?_⟩
  · have : (recordHistory q t prev).length
        = ((⟨q, t⟩ :: prev.filter (fun item => decide (item.query ≠ q))).take 20).length := rfl
    rw [this, List.length_take]
    omega
  · intro hlen hall
    have hfilter : prev.filter (fun item => decide (item.query ≠ q)) = prev := by
      apply List.filter_eq_self.mpr
      intro a ha
      simpa using hall a ha
    unfold recordHistory
    rw [hfilter]
    have hstep : (⟨q, t⟩ :: prev).take 20 = ⟨q, t⟩ :: prev.take 19 := rfl
    rw [hstep]
    rw [List.dropLast_eq_take, hlen]

/-- A full 20-entry history of distinct queries, for the truncation witness. -/
def fullHistory : List HistoryItem :=
  [⟨"q01", 1⟩, ⟨"q02", 2⟩, ⟨"q03", 3⟩, ⟨"q04", 4⟩, ⟨"q05", 5⟩,
   ⟨"q06", 6⟩, ⟨"q07", 7⟩, ⟨"q08", 8⟩, ⟨"q09", 9⟩, ⟨"q10", 10⟩,
   ⟨"q11", 11⟩, ⟨"q12", 12⟩, ⟨"q13", 13⟩, ⟨"q14", 14⟩, ⟨"q15", 15⟩,
   ⟨"q16", 16⟩, ⟨"q17", 17⟩, ⟨"q18", 18⟩, ⟨"q19", 19⟩, ⟨"q20", 20⟩]

/-- Claim C4, witness: recording a 21st distinct query into a full ledger
drops exactly the oldest entry. -/
theorem history_bounded_witness :
    recordHistory "novo" 99 fullHistory = ⟨"novo", 99⟩ :: fullHistory.dropLast :=
  (history_bounded "novo" "q01" 99 fullHistory).2.2.2.2 (by rfl) (by decide)

/-! ## Claim C5: windowed trend statistics -/

/-- Three searches inside the current window, none in the previous one. -/
def histNewActivity : List HistoryItem :=
  [⟨"a", 950⟩, ⟨"b", 960⟩, ⟨"c", 970⟩]

/-- Two searches in the current window, four in the previous one. -/
def histDecline : List HistoryItem :=
  [⟨"a", 950⟩, ⟨"b", 960⟩, ⟨"c", 850⟩, ⟨"d", 860⟩, ⟨"e", 870⟩, ⟨"f", 880⟩]

/-- The integer rounding used by the embedded `calculateRealStats` agrees
with the spec formula `⌊x + 1/2⌋` on the exact rational
`(current - previous) / previous * 100`. -/
theorem roundRatio_eq_floor (c p : Nat) (hp : p ≠ 0) :
    roundRatio (((c : Int) - (p : Int)) * 100) (p : Int)
      = ⌊((c : ℚ) - (p : ℚ)) / (p : ℚ) * 100 + 1 / 2⌋ := by
  have hpQ : (p : ℚ) ≠ 0 := Nat.cast_ne_zero.mpr hp
  have hx : ((c : ℚ) - (p : ℚ)) / (p : ℚ) * 100 + 1 / 2
      = ((2 * (((c : Int) - (p : Int)) * 100) + (p : Int) : Int) : ℚ) / ((2 * p : Nat) : ℚ) := by
    push_cast
    field_simp
    ring
  rw [hx, Rat.floor_intCast_div_natCast]
  unfold roundRatio
  push_cast
  try ring

/-- Claim C5 (confirmed). For every history, window length and current time,
the trend rendered by `calculateRealStats` is the spec formula
`round((current - previous) / previous * 100)` (with the previous-zero
special case) applied to the two window counts, rendered with a `+` prefix
for non-negative values; concretely previous=0, current=3 gives "+100%" and
previous=4, current=2 gives "-50%". -/
theorem trend_formula (hist : List HistoryItem) (saved : List SavedComparison)
    (now dur : Int) :
    (calculateRealStats hist saved now dur).trend
      = trendFormat (trendSpec (periodCountSpec hist now dur) (prevPeriodCountSpec hist now dur)) ∧
    periodCountSpec histNewActivity 1000 100 = 3 ∧
    prevPeriodCountSpec histNewActivity 1000 100 = 0 ∧
    (calculateRealStats histNewActivity [] 1000 100).trend = "+100%" ∧
    periodCountSpec histDecline 1000 100 = 2 ∧
    prevPeriodCountSpec histDecline 1000 100 = 4 ∧
    (calculateRealStats histDecline [] 1000 100).trend = "-50%" := by
  refine ⟨?_, by decide, by decide, by decide, by decide, by decide, by decide⟩
  unfold calculateRealStats trendFormat trendSpec periodCountSpec prevPeriodCountSpec
  dsimp only
  by_cases hp : (hist.filter (fun h =>
      decide (dur ≤ now - h.timestamp ∧ now - h.timestamp < dur * 2))).length = 0
  · rw [if_pos hp, if_pos hp]
  · rw [if_neg hp, if_neg hp, roundRatio_eq_floor _ _ hp]

/-! ## Claim C6: overlapping persona-analysis requests -/

/-- Claim C6, counterexample to the claim as stated: dispatch for persona
"p1", then select "p2" while the first request is in flight; when the first
(now stale) response arrives, its verdict is written to `personaResult`
unconditionally — the stale completion DOES overwrite the result shown for
the most recent selection "p2". -/
theorem persona_stale_overwrite_counterexample :
    (personaComplete ⟨Json.str "PS5".toList, Json.str "motivo".toList⟩
        (personaDispatch "p2" (personaDispatch "p1" ⟨none, none, false, none⟩))).selectedPersona
      = some "p2" ∧
    (personaComplete ⟨Json.str "PS5".toList, Json.str "motivo".toList⟩
        (personaDispatch "p2" (personaDispatch "p1" ⟨none, none, false, none⟩))).personaResult
      = some ⟨Json.str "PS5".toList, Json.str "motivo".toList⟩ :=
  ⟨rfl, rfl⟩

/-- Claim C6 (corrected). The completion handler never compares the
dispatch-time persona id with the completion-time selection: after
dispatching for `idA`, then for `idB`, the arrival of the response of the
first request installs that (stale) verdict as the displayed result while the
selection is still `idB`, and clears the loading flag. Responses are
honored in arrival order, with no staleness check. -/
theorem persona_last_arrival_wins (idA idB : String) (vA : PersonaAnswer)
    (s0 : PersonaState) :
    (personaComplete vA (personaDispatch idB (personaDispatch idA s0))).selectedPersona
      = some idB ∧
    (personaComplete vA (personaDispatch idB (personaDispatch idA s0))).personaResult
      = some vA ∧
    (personaComplete vA (personaDispatch idB (personaDispatch idA s0))).loadingPersona
      = false :=
  ⟨rfl, rfl, rfl⟩

/-! ## Claim C7: grounding-source extraction -/

/-- Claim C7, counterexample to the claim as stated: a citation chunk whose
web reference has a title but no usable URI is NOT dropped — it appears in
the returned sources with an absent `uri`, so not every returned source has
a usable URI. -/
theorem sources_unchecked_uri_counterexample :
    extractSources [⟨some ⟨some "MaxMobile", none⟩⟩] = [⟨"MaxMobile", none⟩] ∧
    (extractSources [⟨some ⟨some "MaxMobile", none⟩⟩]).all (fun s => s.uri.isSome) = false :=
  ⟨rfl, rfl⟩

/-- Claim C7 (corrected). Source extraction maps each chunk carrying a web
reference to an entry whose title defaults to the generic label when the
web title is missing (or empty) and whose `uri` is copied over *unchecked*
(possibly absent); only chunks without a web reference are dropped, so the
output has exactly one entry per web-bearing chunk. -/
theorem sources_extraction_shape (chunks : List GroundingChunk) :
    extractSources chunks
      = (chunks.filterMap (fun c => c.web)).map (fun w => ⟨titleOrDefault w.title, w.uri⟩) ∧
    (extractSources chunks).length
      = (chunks.filter (fun c => c.web.isSome)).length := by
  constructor
  · induction chunks with
    | nil => rfl
    | cons c cs ih =>
        cases hw : c.web with
        | none => simp [extractSources, List.filterMap_cons, hw] at ih ⊢; exact ih
        | some w => simp [extractSources, List.filterMap_cons, hw] at ih ⊢; exact ih
  · induction chunks with
    | nil => rfl
    | cons c cs ih =>
        cases hw : c.web with
        | none => simp [extractSources, List.filterMap_cons, hw] at ih ⊢; exact ih
        | some w => simp [extractSources, List.filterMap_cons, hw] at ih ⊢; exact ih

/-! ## Claim C8: search failure path -/

/-- Claim C8 (confirmed). For every non-blank query, when the comparison
request rejects, `handleSearch` ends in the ERROR state carrying the fixed
generic message (independent of the underlying error text), the result is
cleared, and the history list is untouched. -/
theorem search_failure_generic (q e e2 : String) (now now2 : Int) (s : AppState)
    (hq : jsTrim q ≠ "") :
    (handleSearch (some q) (Except.error e) now s).loadingState = LoadingState.error ∧
    (handleSearch (some q) (Except.error e) now s).error = some errorMessage ∧
    (handleSearch (some q) (Except.error e) now s).history = s.history ∧
    (handleSearch (some q) (Except.error e) now s).result = none ∧
    handleSearch (some q) (Except.error e) now s
      = handleSearch (some q) (Except.error e2) now2 s := by
  have hq0 : q ≠ "" := by
    intro h
    exact hq (by rw [h]; rfl)
  simp only [handleSearch, if_neg hq0, if_neg hq]
  exact ⟨trivial, trivial, trivial, trivial, trivial⟩

/-- The initial application state. -/
def initialState : AppState :=
  { query := ""
    loadingState := LoadingState.idle
    result := none
    error := none
    history := []
    savedComparisons := []
    view := AppView.home
    urlQ := none }

/-- Claim C8, witness: a failed search for a concrete non-blank query from
the initial state. -/
theorem search_failure_generic_witness :
    (handleSearch (some "PS5 vs Xbox") (Except.error "falha de rede") 1 initialState).loadingState
      = LoadingState.error ∧
    (handleSearch (some "PS5 vs Xbox") (Except.error "falha de rede") 1 initialState).error
      = some errorMessage ∧
    (handleSearch (some "PS5 vs Xbox") (Except.error "falha de rede") 1 initialState).history
      = initialState.history ∧
    (handleSearch (some "PS5 vs Xbox") (Except.error "falha de rede") 1 initialState).result
      = none ∧
    handleSearch (some "PS5 vs Xbox") (Except.error "falha de rede") 1 initialState
      = handleSearch (some "PS5 vs Xbox") (Except.error "cota excedida") 2 initialState :=
  search_failure_generic "PS5 vs Xbox" "falha de rede" "cota excedida" 1 2 initialState
    (by decide)

end VersusAI
